import Mathlib

/-!
Shallow embedding of `tools/fix_nif_winding.py` (NIF triangle-winding fixer).

The buffer is a `List Nat` of byte values; Python exceptions that the script
leaves uncaught (`struct.error`, `IndexError`, `UnicodeDecodeError`) are
modelled with `Except PyErr`.  Strings are modelled as their byte lists
(the script only ever compares them against pure-ASCII literals, for which
the utf-8 and latin-1 decodings both agree with byte-level comparison, and
`rstrip('\x00')` is byte-level removal of trailing zeros).
-/

namespace NifFix

/-- Uncaught Python exception kinds reachable in the script. -/
inductive PyErr where
  | structError
  | indexError
  | decodeError
  deriving DecidableEq, Repr

/-- Little-endian value of a byte list (least significant byte first). -/
def leVal (bs : List Nat) : Nat := bs.foldr (fun b acc => b + 256 * acc) 0

/-- Python slice `data[pos:pos+n]`: clamps at the end of the buffer. -/
def bytesAt (data : List Nat) (pos : Nat) : Nat → List Nat
  | 0 => []
  | n + 1 =>
    match data[pos]? with
    | none => []
    | some b => b :: bytesAt data (pos + 1) n

/-- Bytes of `struct.pack('<H', v)`. -/
def pack16 (v : Nat) : List Nat := [v % 256, v / 256 % 256]

/-- Bytes of `struct.pack('<I', v)`. -/
def pack32 (v : Nat) : List Nat :=
  [v % 256, v / 256 % 256, v / 65536 % 256, v / 16777216 % 256]

/-- Write a byte list into the buffer starting at `pos` (`struct.pack_into`). -/
def writeBytes (data : List Nat) (pos : Nat) : List Nat → List Nat
  | [] => data
  | b :: bs => writeBytes (data.set pos b) (pos + 1) bs

/-- Remove trailing zero bytes (Python `.rstrip('\x00')` on the decoded string). -/
def rstripZero (bs : List Nat) : List Nat := (bs.reverse.dropWhile (· == 0)).reverse

/-- First index of byte `b` in `data` (Python `data.find(bytes([b]))`). -/
def findByte (data : List Nat) (b : Nat) : Option Nat := data.findIdx? (· == b)

/-- Python substring containment test `pat in hay` on byte strings. -/
def containsSub (hay pat : List Nat) : Bool :=
  (List.range (hay.length + 1)).any (fun i => (hay.drop i).take pat.length == pat)

/-- Python `data.find(pat, start, stop)`: least match position inside the
slice `[start, min stop len)`, `none` when absent. -/
def findSub (data pat : List Nat) (start stop : Nat) : Option Nat :=
  let hi := min stop data.length
  (List.range' start (hi - start)).find?
    (fun i => decide (i + pat.length ≤ hi) && ((data.drop i).take pat.length == pat))

/-- ASCII bytes of `"Gamebryo File Format"`. -/
def GAMEBRYO : List Nat :=
  [71, 97, 109, 101, 98, 114, 121, 111, 32, 70, 105, 108, 101, 32, 70, 111, 114, 109, 97, 116]

/-- ASCII bytes of `"NiMesh"`. -/
def NIMESH : List Nat := [78, 105, 77, 101, 115, 104]

/-- ASCII bytes of `"NiDataStream"`. -/
def NIDATASTREAM : List Nat := [78, 105, 68, 97, 116, 97, 83, 116, 114, 101, 97, 109]

/-- ASCII bytes of `"INDEX"`. -/
def INDEXSTR : List Nat := [73, 78, 68, 69, 88]

/-- Packed NIF version, `nif_version` in the script. -/
def nif_version (a b c d : Nat) : Nat := a * 16777216 + b * 65536 + c * 256 + d

/-- Parser state: mirror of the mutable fields of class `NifParser`. -/
structure NifState where
  data : List Nat
  pos : Nat
  file_ver : Nat
  user_ver : Nat
  num_objects : Nat
  type_names : List (List Nat)
  object_types : List (List Nat)
  object_sizes : List Nat
  object_offsets : List Nat
  string_table : List (List Nat)
  modified : Bool
  deriving DecidableEq, Repr

/-- `NifParser.__init__`: fresh state over an input buffer. -/
def initSt (data : List Nat) : NifState :=
  { data := data, pos := 0, file_ver := 0, user_ver := 0, num_objects := 0,
    type_names := [], object_types := [], object_sizes := [], object_offsets := [],
    string_table := [], modified := false }

/-- `read_byte`: bytearray indexing, `IndexError` past the end. -/
def read_byte (st : NifState) : Except PyErr (Nat × NifState) :=
  match st.data[st.pos]? with
  | some v => .ok (v, { st with pos := st.pos + 1 })
  | none => .error .indexError

/-- `read_ushort`: `struct.unpack_from('<H', ...)`, `struct.error` past the end. -/
def read_ushort (st : NifState) : Except PyErr (Nat × NifState) :=
  if st.pos + 2 ≤ st.data.length then
    .ok (leVal (bytesAt st.data st.pos 2), { st with pos := st.pos + 2 })
  else .error .structError

/-- `read_uint`: `struct.unpack_from('<I', ...)`. -/
def read_uint (st : NifState) : Except PyErr (Nat × NifState) :=
  if st.pos + 4 ≤ st.data.length then
    .ok (leVal (bytesAt st.data st.pos 4), { st with pos := st.pos + 4 })
  else .error .structError

/-- `read_int`: `struct.unpack_from('<i', ...)`, signed 32-bit. -/
def read_int (st : NifState) : Except PyErr (Int × NifState) :=
  match read_uint st with
  | .ok (u, st') => .ok (if 2 ^ 31 ≤ u then (u : Int) - 2 ^ 32 else (u : Int), st')
  | .error e => .error e

/-- `read_string`: clamped slice, decoded and stripped of trailing NULs.
Never raises (Python slices clamp, and the latin-1 fallback always succeeds). -/
def read_string (st : NifState) (len : Nat) : List Nat × NifState :=
  (rstripZero (bytesAt st.data st.pos len), { st with pos := st.pos + len })

/-- Read a 32-bit little-endian value at an absolute position
(`struct.unpack_from('<I', self.data, p)`). -/
def u32At (data : List Nat) (p : Nat) : Except PyErr Nat :=
  if p + 4 ≤ data.length then .ok (leVal (bytesAt data p 4)) else .error .structError

/-- Python list indexing `xs[i]` (raises `IndexError` when out of range). -/
def getItem {α : Type} (xs : List α) (i : Nat) : Except PyErr α :=
  match xs[i]? with
  | some v => .ok v
  | none => .error .indexError

/-- `parse_header`. The endianness flag is read but never used afterwards; the
`ver_maj`/`ver_min` locals and the secondary user version are likewise read and
discarded. A negative object count returns `False` (file rejected). -/
def parse_header (st : NifState) : Except PyErr (Bool × NifState) :=
  match findByte st.data 10 with
  | none => .ok (false, st)
  | some headerEnd =>
    let headerLine := st.data.take headerEnd
    if headerLine.any (fun b => decide (128 ≤ b)) then .error .decodeError
    else if containsSub headerLine GAMEBRYO then do
      let st := { st with pos := headerEnd + 1 }
      let (fv, st) ← read_uint st
      let st := { st with file_ver := fv }
      let st ← if nif_version 20 0 0 3 ≤ st.file_ver then do
          let (_, st) ← read_byte st
          pure st
        else pure st
      let st ← if nif_version 10 0 1 8 ≤ st.file_ver then do
          let (u, st) ← read_uint st
          pure { st with user_ver := u }
        else pure st
      let (n, st) ← read_int st
      if n ≤ 0 then .ok (false, st)
      else
        let st := { st with num_objects := n.toNat }
        if st.user_ver = nif_version 0 0 0 12 ∧ st.file_ver = nif_version 20 2 0 7 then do
          let (_, st) ← read_uint st
          .ok (true, st)
        else .ok (true, st)
    else .ok (false, st)

/-- `parse_metadata` (version ≥ 20.9.0.1 skips a size-prefixed block).
The Python function always returns `True`, so the result is just the state. -/
def parse_metadata (st : NifState) : Except PyErr NifState :=
  if nif_version 20 9 0 1 ≤ st.file_ver then do
    let (ms, st) ← read_uint st
    if 0 < ms then pure { st with pos := st.pos + ms } else pure st
  else .ok st

/-- Loop reading `n` length-prefixed type-name strings. -/
def readTypeNameList : Nat → NifState → Except PyErr (List (List Nat) × NifState)
  | 0, st => .ok ([], st)
  | n + 1, st => do
    let (len, st) ← read_uint st
    let (s, st) := read_string st len
    let (rest, st) ← readTypeNameList n st
    .ok (s :: rest, st)

/-- Loop reading `n` 16-bit type indices and resolving them against
`type_names` (`IndexError` on an out-of-range index, as in Python). -/
def readObjectTypeList : Nat → NifState → Except PyErr (List (List Nat) × NifState)
  | 0, st => .ok ([], st)
  | n + 1, st => do
    let (ti, st) ← read_ushort st
    let ti := if nif_version 20 2 0 5 ≤ st.file_ver then ti % 32768 else ti
    match st.type_names[ti]? with
    | none => .error .indexError
    | some name => do
      let (rest, st) ← readObjectTypeList n st
      .ok (name :: rest, st)

/-- `parse_type_names_and_indices`. -/
def parse_type_names_and_indices (st : NifState) : Except PyErr NifState := do
  let (numTypes, st) ← read_ushort st
  let (tns, st) ← readTypeNameList numTypes st
  let st := { st with type_names := tns }
  let (ots, st) ← readObjectTypeList st.num_objects st
  .ok { st with object_types := ots }

/-- Loop reading `n` 32-bit values. -/
def readUintList : Nat → NifState → Except PyErr (List Nat × NifState)
  | 0, st => .ok ([], st)
  | n + 1, st => do
    let (v, st) ← read_uint st
    let (rest, st) ← readUintList n st
    .ok (v :: rest, st)

/-- `parse_object_sizes` (only for version ≥ 20.2.0.5; otherwise the
`object_sizes` list is left as initialised, i.e. empty). -/
def parse_object_sizes (st : NifState) : Except PyErr NifState :=
  if nif_version 20 2 0 5 ≤ st.file_ver then do
    let (sizes, st) ← readUintList st.num_objects st
    .ok { st with object_sizes := sizes }
  else .ok st

/-- Loop reading `n` length-prefixed strings of the string table
(length 0 yields the empty string). -/
def readStringList : Nat → NifState → Except PyErr (List (List Nat) × NifState)
  | 0, st => .ok ([], st)
  | n + 1, st => do
    let (len, st) ← read_uint st
    if 0 < len then
      let (s, st) := read_string st len
      let (rest, st) ← readStringList n st
      .ok (s :: rest, st)
    else do
      let (rest, st) ← readStringList n st
      .ok (([] : List Nat) :: rest, st)

/-- `parse_string_table` (version ≥ 20.1.0.1; the max-string-size word is
read and ignored). -/
def parse_string_table (st : NifState) : Except PyErr NifState :=
  if nif_version 20 1 0 1 ≤ st.file_ver then do
    let (numStrings, st) ← read_uint st
    let (_, st) ← read_uint st
    let (tbl, st) ← readStringList numStrings st
    .ok { st with string_table := tbl }
  else .ok st

/-- Skip `n` 32-bit values (the discarded object-group table entries). -/
def skipUints : Nat → NifState → Except PyErr NifState
  | 0, st => .ok st
  | n + 1, st => do
    let (_, st) ← read_uint st
    skipUints n st

/-- `parse_object_groups` (version ≥ 5.0.0.6; values discarded). -/
def parse_object_groups (st : NifState) : Except PyErr NifState :=
  if nif_version 5 0 0 6 ≤ st.file_ver then do
    let (numGroups, st) ← read_uint st
    skipUints numGroups st
  else .ok st

/-- The offset-accumulation loop of `parse_and_fix`:
`for i in range(num_objects): offsets.append(cur); cur += object_sizes[i]`.
Indexing an exhausted size list raises `IndexError`, as in Python. -/
def buildOffsets (cur : Nat) (sizes : List Nat) : Nat → Except PyErr (List Nat)
  | 0 => .ok []
  | n + 1 =>
    match sizes with
    | [] => .error .indexError
    | s :: rest => do
      let tail ← buildOffsets (cur + s) rest n
      .ok (cur :: tail)

/-- Inner validation loop of `find_index_streams_in_mesh`: check `n` element
descriptors of 8 bytes each starting at `ePos`; a descriptor range past
`endPos` makes the candidate invalid, an out-of-range string index or an
element index ≥ 10 likewise. Reads past the physical buffer end raise
`struct.error` (the Python code checks only against `end_pos`, which may
exceed the real buffer length). -/
def validateElemDescs (st : NifState) (endPos : Nat) : Nat → Nat → Except PyErr Bool
  | _, 0 => .ok true
  | ePos, n + 1 =>
    if endPos < ePos + 8 then .ok false
    else do
      let eStr ← u32At st.data ePos
      let eIdx ← u32At st.data (ePos + 4)
      if st.string_table.length ≤ eStr ∨ 10 ≤ eIdx then .ok false
      else validateElemDescs st endPos (ePos + 8) n

/-- Backward search for the stream link id: `for link_offset in range(7, 50)`,
stopping once the candidate position falls before the mesh start, accepting
the first 32-bit value that is a valid object id whose type name starts with
`"NiDataStream"`. -/
def findLinkId (st : NifState) (startPos numPos : Nat) : List Nat → Except PyErr (Option Nat)
  | [] => .ok none
  | off :: rest =>
    if (numPos : Int) - (off : Int) < (startPos : Int) then .ok none
    else do
      let linkId ← u32At st.data (numPos - off)
      if linkId < st.num_objects then
        match st.object_types[linkId]? with
        | none => .error .indexError
        | some ty =>
          if NIDATASTREAM.isPrefixOf ty then .ok (some linkId)
          else findLinkId st startPos numPos rest
      else findLinkId st startPos numPos rest

/-- Backward scan for a plausible `numElementDescs` field:
`for back in range(4, 100, 4)`, stopping before the mesh start; a candidate
count in `[1, 10]` whose descriptors validate triggers the link-id search. -/
def backScan (st : NifState) (startPos endPos idx : Nat) : List Nat → Except PyErr (Option Nat)
  | [] => .ok none
  | back :: rest =>
    if (idx : Int) - (back : Int) < (startPos : Int) then .ok none
    else do
      let numPos := idx - back
      let numElems ← u32At st.data numPos
      if numElems < 1 ∨ 10 < numElems then backScan st startPos endPos idx rest
      else do
        let valid ← validateElemDescs st endPos (numPos + 4) numElems
        if valid then do
          let link ← findLinkId st startPos numPos (List.range' 7 43)
          match link with
          | some l => .ok (some l)
          | none => backScan st startPos endPos idx rest
        else backScan st startPos endPos idx rest

/-- Forward scan of `find_index_streams_in_mesh`
(`while search_pos < end_pos - 20: idx = data.find(pattern, search_pos, end_pos) ...`).
The extra `fuel` argument only makes the recursion structural: every iteration
advances `searchPos` by at least one (the found index is ≥ `searchPos`), so
with initial fuel `endPos` the fuel can only run out once `endPos ≤ searchPos`,
in which case the loop condition `searchPos + 20 < endPos` is false anyway and
both the model and Python return the accumulated list. -/
def scanLoop (st : NifState) (startPos endPos : Nat) (pat : List Nat) :
    Nat → Nat → Except PyErr (List (Nat × Nat))
  | _, 0 => .ok []
  | searchPos, fuel + 1 =>
    if searchPos + 20 < endPos then
      match findSub st.data pat searchPos endPos with
      | none => .ok []
      | some idx => do
        let ev ← u32At st.data (idx + 4)
        if 10 ≤ ev then scanLoop st startPos endPos pat (idx + 1) fuel
        else do
          let link ← backScan st startPos endPos idx (List.range' 4 24 4)
          match link with
          | some l => do
            let rest ← scanLoop st startPos endPos pat (idx + 1) fuel
            .ok ((l, ev) :: rest)
          | none => scanLoop st startPos endPos pat (idx + 1) fuel
    else .ok []

/-- `find_index_streams_in_mesh`: heuristic scan of one mesh object's byte
range for element descriptors naming the `"INDEX"` string, resolving each hit
to a linked data-stream object id. Pure (never mutates the buffer). -/
def find_index_streams_in_mesh (st : NifState) (meshIdx indexStrIdx : Nat) :
    Except PyErr (List (Nat × Nat)) := do
  let startPos ← getItem st.object_offsets meshIdx
  let sz ← getItem st.object_sizes meshIdx
  let endPos := startPos + sz
  scanLoop st startPos endPos (pack32 indexStrIdx) startPos endPos

/-- Loop reading `numRegions` pairs `(baseElementIndex, elementCount)`. -/
def readRegionList : Nat → NifState → Except PyErr (List (Nat × Nat) × NifState)
  | 0, st => .ok ([], st)
  | n + 1, st => do
    let (b, st) ← read_uint st
    let (c, st) ← read_uint st
    let (rest, st) ← readRegionList n st
    .ok ((b, c) :: rest, st)

/-- Element-format loop of `fix_datastream_winding`: reads `n` packed 32-bit
descriptors, accumulating the stride and - from the FIRST entry only - the
index width: `index_size = elem_size; if elem_type in (10, 11): index_size = 4`.
Arguments: remaining count, current loop index `e`, current `index_size`
(initially 2), current `elem_stride` (initially 0). -/
def readElemFormats : Nat → Nat → Nat → Nat → NifState → Except PyErr ((Nat × Nat) × NifState)
  | 0, _, isz, stride, st => .ok ((isz, stride), st)
  | n + 1, e, isz, stride, st => do
    let (d, st) ← read_uint st
    let cnt := d / 65536 % 256
    let sz := d / 256 % 256
    let ty := d % 256
    let isz := if e = 0 then (if ty = 10 ∨ ty = 11 then 4 else sz) else isz
    readElemFormats n (e + 1) isz (stride + cnt * sz) st

/-- `struct.pack_into('<H', data, pos, v)`. -/
def write16 (data : List Nat) (pos v : Nat) : List Nat :=
  writeBytes data pos (pack16 v)

/-- `struct.pack_into('<I', data, pos, v)`. -/
def write32 (data : List Nat) (pos v : Nat) : List Nat :=
  writeBytes data pos (pack32 v)

/-- Little-endian read of `n` bytes at `pos`. -/
def readLE (data : List Nat) (pos n : Nat) : Nat := leVal (bytesAt data pos n)

/-- One 16-bit triangle swap: `a, b, c = unpack('<HHH'); pack_into('<HHH', ..., a, c, b)`. -/
def swapTri2 (data : List Nat) (off : Nat) : List Nat :=
  let a := readLE data off 2
  let b := readLE data (off + 2) 2
  let c := readLE data (off + 4) 2
  write16 (write16 (write16 data off a) (off + 2) c) (off + 4) b

/-- One 32-bit triangle swap (`'<III'` variant). -/
def swapTri4 (data : List Nat) (off : Nat) : List Nat :=
  let a := readLE data off 4
  let b := readLE data (off + 4) 4
  let c := readLE data (off + 8) 4
  write32 (write32 (write32 data off a) (off + 4) c) (off + 8) b

/-- Triangle loop, 16-bit indices: swap triangles at consecutive 6-byte
offsets, stopping (`break`) at the first one extending past the buffer. -/
def patchTris2 : List Nat → Nat → Nat → List Nat
  | data, _, 0 => data
  | data, off, n + 1 =>
    if data.length < off + 6 then data
    else patchTris2 (swapTri2 data off) (off + 6) n

/-- Triangle loop, 32-bit indices (12-byte triples). -/
def patchTris4 : List Nat → Nat → Nat → List Nat
  | data, _, 0 => data
  | data, off, n + 1 =>
    if data.length < off + 12 then data
    else patchTris4 (swapTri4 data off) (off + 12) n

/-- Region loop of `fix_datastream_winding`. Returns the patched buffer and
`total_triangles`. A region whose count is not divisible by 3 is skipped; a
region's triangle count is added to the total even when the triangle loop
stopped early at the buffer end; an index width other than 2 or 4 matches
neither branch, so nothing happens. -/
def patchRegions (data : List Nat) (indexSize elemStride dataStart : Nat) :
    List (Nat × Nat) → List Nat × Nat
  | [] => (data, 0)
  | (baseIdx, count) :: rest =>
    if indexSize = 2 then
      if count % 3 ≠ 0 then patchRegions data indexSize elemStride dataStart rest
      else
        let d' := patchTris2 data (dataStart + baseIdx * elemStride) (count / 3)
        let (d'', tot) := patchRegions d' indexSize elemStride dataStart rest
        (d'', count / 3 + tot)
    else if indexSize = 4 then
      if count % 3 ≠ 0 then patchRegions data indexSize elemStride dataStart rest
      else
        let d' := patchTris4 data (dataStart + baseIdx * elemStride) (count / 3)
        let (d'', tot) := patchRegions d' indexSize elemStride dataStart rest
        (d'', count / 3 + tot)
    else patchRegions data indexSize elemStride dataStart rest

/-- `fix_datastream_winding`: parse the stream record at the object's offset
and reverse the winding of every complete triangle in its regions; sets the
`modified` flag when `total_triangles > 0` (whether or not any byte changed). -/
def fix_datastream_winding (st : NifState) (streamIdx : Nat) : Except PyErr NifState := do
  let off ← getItem st.object_offsets streamIdx
  let st := { st with pos := off }
  let (_streamSize, st) ← read_uint st
  let (_streamClone, st) ← read_uint st
  let (numRegions, st) ← read_uint st
  let (regions, st) ← readRegionList numRegions st
  let (numElements, st) ← read_uint st
  let ((indexSize, elemStride), st) ← readElemFormats numElements 0 2 0 st
  let dataStart := st.pos
  let (d', total) := patchRegions st.data indexSize elemStride dataStart regions
  let st := { st with data := d' }
  if 0 < total then .ok { st with modified := true } else .ok st

/-- `self.string_table.index("INDEX")`, as an `Option` (the `ValueError` is
caught by the script). -/
def stringTableIndexOf (tbl : List (List Nat)) (s : List Nat) : Option Nat :=
  tbl.findIdx? (· == s)

/-- Per-mesh stream loop of `process_all_meshes`, instrumented with two ghost
outputs: the ids discovered (in order, duplicates included) and the ids
actually passed to `fix_datastream_winding` (in order). Also returns the
updated processed-set. The ghost outputs do not influence the computation. -/
def streamLoop : NifState → List (Nat × Nat) → List Nat →
    Except PyErr (NifState × List Nat × List Nat × List Nat)
  | st, [], processed => .ok (st, processed, [], [])
  | st, (sid, _) :: rest, processed =>
    if sid ∈ processed then do
      let (st, processed, d, p) ← streamLoop st rest processed
      .ok (st, processed, sid :: d, p)
    else do
      let st ← fix_datastream_winding st sid
      let (st, processed', d, p) ← streamLoop st rest (processed ++ [sid])
      .ok (st, processed', sid :: d, sid :: p)

/-- Object loop of `process_all_meshes` (`for i in range(num_objects)`),
matching the type name against exactly `"NiMesh"`; instrumented with the same
ghost outputs as `streamLoop`. -/
def meshLoop (idxStr : Nat) : NifState → Nat → Nat → List Nat →
    Except PyErr (NifState × List Nat × List Nat)
  | st, _, 0, _ => .ok (st, [], [])
  | st, i, n + 1, processed => do
    let ty ← getItem st.object_types i
    if ty == NIMESH then do
      let streams ← find_index_streams_in_mesh st i idxStr
      let (st, processed, d1, p1) ← streamLoop st streams processed
      let (st, d2, p2) ← meshLoop idxStr st (i + 1) n processed
      .ok (st, d1 ++ d2, p1 ++ p2)
    else meshLoop idxStr st (i + 1) n processed

/-- `process_all_meshes`: look up `"INDEX"` in the string table (absent ⇒ no
work), then walk every `NiMesh` object, patching each discovered stream id at
most once via the processed-set. Ghost outputs as in `meshLoop`. -/
def process_all_meshes (st : NifState) : Except PyErr (NifState × List Nat × List Nat) :=
  match stringTableIndexOf st.string_table INDEXSTR with
  | none => .ok (st, [], [])
  | some idxStr => meshLoop idxStr st 0 st.num_objects []

/-- Header and all version-gated tables plus the offset accumulation: the part
of `parse_and_fix` before `process_all_meshes`. The Bool is `parse_header`'s
verdict (the other `parse_*` helpers always return `True` in Python). -/
def parseTables (st : NifState) : Except PyErr (Bool × NifState) := do
  let (ok1, st) ← parse_header st
  if ok1 then do
    let st ← parse_metadata st
    let st ← if nif_version 5 0 0 1 ≤ st.file_ver then parse_type_names_and_indices st
      else pure st
    let st ← parse_object_sizes st
    let st ← parse_string_table st
    let st ← parse_object_groups st
    let offs ← buildOffsets st.pos st.object_sizes st.num_objects
    .ok (true, { st with object_offsets := offs })
  else .ok (false, st)

/-- `parse_and_fix`: full single-buffer run, returning the `modified` flag. -/
def parse_and_fix (st : NifState) : Except PyErr (Bool × NifState) := do
  let (ok1, st) ← parseTables st
  if ok1 then do
    let (st, _, _) ← process_all_meshes st
    .ok (st.modified, st)
  else .ok (false, st)

/-- `fix_nif_file` on an already-read buffer: run the parser, and when the
buffer was modified write it out (`some written`); a raised exception
propagates uncaught to the caller. -/
def fix_nif_file (data : List Nat) : Except PyErr (Bool × Option (List Nat)) := do
  let (m, st) ← parse_and_fix (initSt data)
  if m then .ok (true, some st.data) else .ok (false, none)

/-! Concrete buffers and states used to settle the claims. -/

/-- Stream-record state for the index-width analysis: one element format with
`itemCount = 1`, `itemByteSize = 4`, `dataTypeCode = 5`, one region `(0, 3)`,
and a 12-byte payload. Packed element word `0x10405 = [5, 4, 1, 0]`. -/
def stC1 : NifState :=
  { data := pack32 0 ++ pack32 0 ++ pack32 1 ++ pack32 0 ++ pack32 3 ++ pack32 1 ++
      pack32 66565 ++ [1, 2, 3, 4] ++ [5, 6, 7, 8] ++ [9, 10, 11, 12],
    pos := 0, file_ver := 0, user_ver := 0, num_objects := 1,
    type_names := [], object_types := [], object_sizes := [40], object_offsets := [0],
    string_table := [], modified := false }

/-- Stream-record state whose single region `(0, 3)` declares one triangle but
whose buffer ends right at the payload start, so the triangle loop breaks
before swapping anything. -/
def stC4 : NifState :=
  { data := pack32 0 ++ pack32 0 ++ pack32 1 ++ pack32 0 ++ pack32 3 ++ pack32 1 ++
      pack32 66053,
    pos := 0, file_ver := 0, user_ver := 0, num_objects := 1,
    type_names := [], object_types := [], object_sizes := [28], object_offsets := [0],
    string_table := [], modified := false }

/-- Stream-record state with two overlapping regions `(0, 3)` and `(0, 2)`
over a 6-byte payload (element stride 2, 16-bit indices): the second region's
count is not a multiple of 3, yet its byte range overlaps the first region's
patched triangle. -/
def stC7 : NifState :=
  { data := pack32 0 ++ pack32 0 ++ pack32 2 ++ pack32 0 ++ pack32 3 ++ pack32 0 ++
      pack32 2 ++ pack32 1 ++ pack32 66053 ++ [1, 0, 2, 0, 3, 0],
    pos := 0, file_ver := 0, user_ver := 0, num_objects := 1,
    type_names := [], object_types := [], object_sizes := [42], object_offsets := [0],
    string_table := [], modified := false }

/-- A 40-byte mesh record whose byte pattern makes the heuristic locator
resolve exactly one INDEX stream reference to object id 1: link id at
offset 0, a descriptor count 1 at offset 12, the descriptor
`(stringIndex 1, elementIndex 0)` at offset 16, padding `0xFF` elsewhere. -/
def meshRec : List Nat :=
  pack32 1 ++ List.replicate 8 255 ++ pack32 1 ++ pack32 1 ++ pack32 0 ++
    List.replicate 16 255

/-- A 34-byte stream record: one region `(0, 3)`, one element format
`(1, 2, 5)` (16-bit indices, stride 2), payload `(1, 2, 3)` as ushorts. -/
def streamRecW8 : List Nat :=
  pack32 6 ++ pack32 0 ++ pack32 1 ++ pack32 0 ++ pack32 3 ++
    pack32 1 ++ pack32 66053 ++ [1, 0, 2, 0, 3, 0]

/-- Post-table state with one `NiMesh` (object 0, `meshRec`) and one
`NiDataStream` (object 1, `streamRecW8`), string table `["X", "INDEX"]`. -/
def stW8 : NifState :=
  { data := meshRec ++ streamRecW8,
    pos := 0, file_ver := 0, user_ver := 0, num_objects := 2,
    type_names := [NIMESH, NIDATASTREAM], object_types := [NIMESH, NIDATASTREAM],
    object_sizes := [40, 34], object_offsets := [0, 40],
    string_table := [[88], INDEXSTR], modified := false }

/-- A 44-byte stream record with two OVERLAPPING regions `(0, 3)` and
`(1, 3)` (element stride 2, so the second region starts 2 bytes after the
first) over an 8-byte payload `(0x1111, 0x2222, 0x3333, 0x4444)`. -/
def streamRecB5head : List Nat :=
  pack32 8 ++ pack32 0 ++ pack32 2 ++ pack32 0 ++ pack32 3 ++
    pack32 1 ++ pack32 3 ++ pack32 1 ++ pack32 66053

def streamRecB5 : List Nat := streamRecB5head ++ [17, 17, 34, 34, 51, 51, 68, 68]

/-- Common file prefix (header plus all tables) for the synthetic two-object
NIF file: version 20.6.0.3, objects `NiMesh` (size 40) and `NiDataStream`
(size 44), string table `["X", "INDEX"]`, empty group table.
Objects start at byte 100. -/
def fileHead : List Nat :=
  GAMEBRYO ++ [10] ++
  [3, 0, 6, 20] ++
  [1] ++
  pack32 0 ++
  pack32 2 ++
  [2, 0] ++
  pack32 6 ++ NIMESH ++
  pack32 12 ++ NIDATASTREAM ++
  [0, 0] ++ [1, 0] ++
  pack32 40 ++ pack32 44 ++
  pack32 2 ++ pack32 5 ++
  pack32 1 ++ [88] ++
  pack32 5 ++ INDEXSTR ++
  pack32 0

/-- Full synthetic NIF file with the overlapping-region stream. -/
def B5 : List Nat := fileHead ++ meshRec ++ streamRecB5

/-- `B5` after one fixer run: payload becomes `(a, c, d, b)`. -/
def B5f1 : List Nat :=
  fileHead ++ meshRec ++ (streamRecB5head ++ [17, 17, 51, 51, 68, 68, 34, 34])

/-- `B5` after two fixer runs: payload becomes `(a, d, b, c)`, not the
original `(a, b, c, d)`. -/
def B5f2 : List Nat :=
  fileHead ++ meshRec ++ (streamRecB5head ++ [17, 17, 68, 68, 34, 34, 51, 51])

/-- Buffer with file version 4.0.0.0 (below 20.2.0.5, so no per-object sizes)
and object count 1: header parses fine, the offset loop then indexes the
empty size list. -/
def B2 : List Nat := GAMEBRYO ++ [10] ++ [0, 0, 0, 4] ++ pack32 1

/-- Buffer with a valid identifying header line but truncated immediately
after it: the mandatory version read runs past the end. -/
def B3 : List Nat := GAMEBRYO ++ [10] ++ [0, 0]

/-- Minimal completely parseable file (version 20.2.0.5, one object of type
`"A"` with size 0, EMPTY string table, empty group table). -/
def B6 : List Nat :=
  GAMEBRYO ++ [10] ++
  [5, 0, 2, 20] ++
  [1] ++
  pack32 0 ++
  pack32 1 ++
  [1, 0] ++
  pack32 1 ++ [65] ++
  [0, 0] ++
  pack32 0 ++
  pack32 0 ++ pack32 0 ++
  pack32 0

/-! Structural lemmas: which state fields each parsing step can change. -/

lemma read_byte_ok {st : NifState} {v : Nat} {st' : NifState}
    (h : read_byte st = .ok (v, st')) : st' = { st with pos := st.pos + 1 } := by
  unfold read_byte at h
  cases hd : st.data[st.pos]? with
  | some b => rw [hd] at h; cases h; rfl
  | none => rw [hd] at h; cases h

lemma read_ushort_ok {st : NifState} {v : Nat} {st' : NifState}
    (h : read_ushort st = .ok (v, st')) : st' = { st with pos := st.pos + 2 } := by
  unfold read_ushort at h
  split at h
  · cases h; rfl
  · cases h

lemma read_uint_ok {st : NifState} {v : Nat} {st' : NifState}
    (h : read_uint st = .ok (v, st')) : st' = { st with pos := st.pos + 4 } := by
  unfold read_uint at h
  split at h
  · cases h; rfl
  · cases h

lemma read_int_ok {st : NifState} {v : Int} {st' : NifState}
    (h : read_int st = .ok (v, st')) : st' = { st with pos := st.pos + 4 } := by
  unfold read_int at h
  cases hr : read_uint st with
  | error e => rw [hr] at h; cases h
  | ok p => rw [hr] at h; cases h; exact read_uint_ok hr

lemma read_string_snd (st : NifState) (len : Nat) :
    (read_string st len).2 = { st with pos := st.pos + len } := rfl

/-- The step changed at most the cursor. -/
def PosOnly (st st' : NifState) : Prop := st' = { st with pos := st'.pos }

lemma posOnly_rfl (st : NifState) : PosOnly st st := by cases st; rfl

lemma posOnly_trans {a b c : NifState} (h1 : PosOnly a b) (h2 : PosOnly b c) :
    PosOnly a c := by
  unfold PosOnly at *
  rw [h2, h1]

lemma readTypeNameList_ok {st : NifState} {n : Nat} {xs : List (List Nat)} {st' : NifState}
    (h : readTypeNameList n st = .ok (xs, st')) : PosOnly st st' := by
  induction n generalizing st xs with
  | zero => cases h; exact posOnly_rfl _
  | succ k ih =>
    unfold readTypeNameList at h
    cases hr : read_uint st with
    | error e => rw [hr] at h; cases h
    | ok p =>
      rw [hr] at h
      obtain ⟨len, st1⟩ := p
      simp only [bind, Except.bind, read_string] at h
      cases hrec : readTypeNameList k { st1 with pos := st1.pos + len } with
      | error e => rw [hrec] at h; cases h
      | ok q =>
        rw [hrec] at h
        obtain ⟨rest, st2⟩ := q
        cases h
        have h1 := read_uint_ok hr
        have h2 := ih hrec
        subst h1
        exact posOnly_trans (by rfl) h2

lemma readObjectTypeList_ok {st : NifState} {n : Nat} {xs : List (List Nat)} {st' : NifState}
    (h : readObjectTypeList n st = .ok (xs, st')) : PosOnly st st' := by
  induction n generalizing st xs with
  | zero => cases h; exact posOnly_rfl _
  | succ k ih =>
    unfold readObjectTypeList at h
    cases hr : read_ushort st with
    | error e => rw [hr] at h; cases h
    | ok p =>
      rw [hr] at h
      obtain ⟨ti, st1⟩ := p
      simp only [bind, Except.bind] at h
      split at h
      · cases h
      · rename_i name hname
        cases hrec : readObjectTypeList k st1 with
        | error e => rw [hrec] at h; cases h
        | ok q =>
          rw [hrec] at h
          obtain ⟨rest, st2⟩ := q
          cases h
          have h1 := read_ushort_ok hr
          have h2 := ih hrec
          subst h1
          exact posOnly_trans (by rfl) h2

lemma readUintList_ok {st : NifState} {n : Nat} {xs : List Nat} {st' : NifState}
    (h : readUintList n st = .ok (xs, st')) : PosOnly st st' := by
  induction n generalizing st xs with
  | zero => cases h; exact posOnly_rfl _
  | succ k ih =>
    unfold readUintList at h
    cases hr : read_uint st with
    | error e => rw [hr] at h; cases h
    | ok p =>
      rw [hr] at h
      obtain ⟨v, st1⟩ := p
      simp only [bind, Except.bind] at h
      cases hrec : readUintList k st1 with
      | error e => rw [hrec] at h; cases h
      | ok q =>
        rw [hrec] at h
        obtain ⟨rest, st2⟩ := q
        cases h
        have h1 := read_uint_ok hr
        have h2 := ih hrec
        subst h1
        exact posOnly_trans (by rfl) h2

lemma readStringList_ok {st : NifState} {n : Nat} {xs : List (List Nat)} {st' : NifState}
    (h : readStringList n st = .ok (xs, st')) : PosOnly st st' := by
  induction n generalizing st xs with
  | zero => cases h; exact posOnly_rfl _
  | succ k ih =>
    unfold readStringList at h
    cases hr : read_uint st with
    | error e => rw [hr] at h; cases h
    | ok p =>
      rw [hr] at h
      obtain ⟨len, st1⟩ := p
      simp only [bind, Except.bind, read_string] at h
      have h1 := read_uint_ok hr
      subst h1
      dsimp only at h
      split at h
      · cases hrec : readStringList k { st with pos := st.pos + 4 + len } with
        | error e => rw [hrec] at h; cases h
        | ok q =>
          obtain ⟨rest, st2⟩ := q
          rw [hrec] at h
          cases h
          exact posOnly_trans (by rfl) (ih hrec)
      · cases hrec : readStringList k { st with pos := st.pos + 4 } with
        | error e => rw [hrec] at h; cases h
        | ok q =>
          obtain ⟨rest, st2⟩ := q
          rw [hrec] at h
          cases h
          exact posOnly_trans (by rfl) (ih hrec)

lemma skipUints_ok {st : NifState} {n : Nat} {st' : NifState}
    (h : skipUints n st = .ok st') : PosOnly st st' := by
  induction n generalizing st with
  | zero => cases h; exact posOnly_rfl _
  | succ k ih =>
    unfold skipUints at h
    cases hr : read_uint st with
    | error e => rw [hr] at h; cases h
    | ok p =>
      rw [hr] at h
      obtain ⟨v, st1⟩ := p
      simp only [bind, Except.bind] at h
      have h1 := read_uint_ok hr
      subst h1
      exact posOnly_trans (by rfl) (ih h)

lemma posOnly_exists {st st' : NifState} (h : PosOnly st st') :
    ∃ p, st' = { st with pos := p } := ⟨st'.pos, h⟩

lemma bind_ok_inv {α β : Type} {f : α → Except PyErr β} {b : β} :
    ∀ {x : Except PyErr α}, x >>= f = Except.ok b →
      ∃ a, x = Except.ok a ∧ f a = Except.ok b
  | .ok a, h => ⟨a, rfl, h⟩
  | .error _, h => nomatch h

/-- Final segment of `parse_header`, from the object-count read onwards. -/
lemma parse_header_tail_ok {s : NifState} {b : Bool} {st' : NifState}
    (h : (do
      let (n, s) ← read_int s
      if n ≤ 0 then Except.ok (false, s)
      else
        let s := { s with num_objects := n.toNat }
        if s.user_ver = nif_version 0 0 0 12 ∧ s.file_ver = nif_version 20 2 0 7 then do
          let (_, s) ← read_uint s
          Except.ok (true, s)
        else Except.ok (true, s)) = Except.ok (b, st')) :
    st' = { s with pos := st'.pos, num_objects := st'.num_objects } ∧
      (b = true → 0 < st'.num_objects) := by
  obtain ⟨⟨n, s1⟩, hn, h⟩ := bind_ok_inv h
  obtain rfl := read_int_ok hn
  dsimp only at h
  split at h
  · cases h
    exact ⟨rfl, by intro hb; exact absurd hb (by decide)⟩
  · rename_i hn0
    split at h
    · obtain ⟨⟨u2, s2⟩, hu2, h⟩ := bind_ok_inv h
      obtain rfl := read_uint_ok hu2
      cases h
      exact ⟨rfl, fun _ => by dsimp only; omega⟩
    · cases h
      exact ⟨rfl, fun _ => by dsimp only; omega⟩

/-- `parse_header` touches only the cursor, the two version fields and the
object count, and a `True` verdict guarantees a positive object count. -/
lemma parse_header_ok {st : NifState} {b : Bool} {st' : NifState}
    (h : parse_header st = .ok (b, st')) :
    st' = { st with
            pos := st'.pos,
            file_ver := st'.file_ver,
            user_ver := st'.user_ver,
            num_objects := st'.num_objects } ∧ (b = true → 0 < st'.num_objects) := by
  unfold parse_header at h
  cases hf : findByte st.data 10 with
  | none =>
    rw [hf] at h
    dsimp only at h
    cases h
    exact ⟨rfl, by intro hb; exact absurd hb (by decide)⟩
  | some he =>
    rw [hf] at h
    dsimp only at h
    split at h
    · cases h
    split at h
    · obtain ⟨⟨fv, st1⟩, hr1, h⟩ := bind_ok_inv h
      obtain rfl := read_uint_ok hr1
      dsimp only at h
      split at h
      · obtain ⟨⟨bv, st2⟩, hb2, h⟩ := bind_ok_inv h
        obtain rfl := read_byte_ok hb2
        simp only [pure_bind] at h
        split at h
        · obtain ⟨⟨uv, st3⟩, hu3, h⟩ := bind_ok_inv h
          obtain rfl := read_uint_ok hu3
          simp only [pure_bind] at h
          obtain ⟨ht1, ht2⟩ := parse_header_tail_ok h
          refine ⟨?_, ht2⟩
          rw [ht1]
        · obtain ⟨ht1, ht2⟩ := parse_header_tail_ok h
          refine ⟨?_, ht2⟩
          rw [ht1]
      · simp only [pure_bind] at h
        (try dsimp only at h)
        split at h
        · obtain ⟨⟨uv, st3⟩, hu3, h⟩ := bind_ok_inv h
          obtain rfl := read_uint_ok hu3
          simp only [pure_bind] at h
          obtain ⟨ht1, ht2⟩ := parse_header_tail_ok h
          refine ⟨?_, ht2⟩
          rw [ht1]
        · obtain ⟨ht1, ht2⟩ := parse_header_tail_ok h
          refine ⟨?_, ht2⟩
          rw [ht1]
    · cases h
      exact ⟨rfl, by intro hb; exact absurd hb (by decide)⟩

lemma parse_metadata_ok {st st' : NifState} (h : parse_metadata st = .ok st') :
    PosOnly st st' := by
  unfold parse_metadata at h
  split at h
  · obtain ⟨⟨ms, st1⟩, hr, h⟩ := bind_ok_inv h
    obtain rfl := read_uint_ok hr
    dsimp only at h
    split at h
    · cases h; rfl
    · cases h; rfl
  · cases h
    exact posOnly_rfl _

lemma parse_type_names_and_indices_ok {st st' : NifState}
    (h : parse_type_names_and_indices st = .ok st') :
    st' = { st with
            pos := st'.pos,
            type_names := st'.type_names,
            object_types := st'.object_types } := by
  unfold parse_type_names_and_indices at h
  obtain ⟨⟨numTypes, st1⟩, hr, h⟩ := bind_ok_inv h
  obtain rfl := read_ushort_ok hr
  dsimp only at h
  obtain ⟨⟨tns, st2⟩, hl, h⟩ := bind_ok_inv h
  obtain ⟨p2, rfl⟩ := posOnly_exists (readTypeNameList_ok hl)
  dsimp only at h
  obtain ⟨⟨ots, st3⟩, ho, h⟩ := bind_ok_inv h
  obtain ⟨p3, rfl⟩ := posOnly_exists (readObjectTypeList_ok ho)
  cases h
  rfl

lemma parse_object_sizes_ok {st st' : NifState} (h : parse_object_sizes st = .ok st') :
    st' = { st with
            pos := st'.pos,
            object_sizes := st'.object_sizes } := by
  unfold parse_object_sizes at h
  split at h
  · obtain ⟨⟨sizes, st1⟩, hl, h⟩ := bind_ok_inv h
    obtain ⟨p1, rfl⟩ := posOnly_exists (readUintList_ok hl)
    cases h
    rfl
  · cases h
    rfl

lemma parse_object_sizes_skip {st : NifState} (h : st.file_ver < nif_version 20 2 0 5) :
    parse_object_sizes st = .ok st := by
  unfold parse_object_sizes
  rw [if_neg (by omega)]

lemma parse_string_table_ok {st st' : NifState} (h : parse_string_table st = .ok st') :
    st' = { st with
            pos := st'.pos,
            string_table := st'.string_table } := by
  unfold parse_string_table at h
  split at h
  · obtain ⟨⟨numStrings, st1⟩, hr, h⟩ := bind_ok_inv h
    obtain rfl := read_uint_ok hr
    dsimp only at h
    obtain ⟨⟨mx, st2⟩, hr2, h⟩ := bind_ok_inv h
    obtain rfl := read_uint_ok hr2
    dsimp only at h
    obtain ⟨⟨tbl, st3⟩, hl, h⟩ := bind_ok_inv h
    obtain ⟨p3, rfl⟩ := posOnly_exists (readStringList_ok hl)
    cases h
    rfl
  · cases h
    rfl

lemma parse_object_groups_ok {st st' : NifState} (h : parse_object_groups st = .ok st') :
    PosOnly st st' := by
  unfold parse_object_groups at h
  split at h
  · obtain ⟨⟨numGroups, st1⟩, hr, h⟩ := bind_ok_inv h
    obtain rfl := read_uint_ok hr
    exact posOnly_trans (by rfl) (skipUints_ok h)
  · cases h
    exact posOnly_rfl _

/-- Segment of `parseTables` from `parse_object_sizes` onwards. -/
lemma parseTables_tail_ok {s : NifState} {b : Bool} {st' : NifState}
    (h : (do
      let st ← parse_object_sizes s
      let st ← parse_string_table st
      let st ← parse_object_groups st
      let offs ← buildOffsets st.pos st.object_sizes st.num_objects
      Except.ok (true, { st with object_offsets := offs })) = Except.ok (b, st')) :
    st'.data = s.data ∧ st'.modified = s.modified ∧
      st'.num_objects = s.num_objects ∧ b = true := by
  obtain ⟨st4, hsz, h⟩ := bind_ok_inv h
  have hs4 := parse_object_sizes_ok hsz
  obtain ⟨st5, hst, h⟩ := bind_ok_inv h
  have hs5 := parse_string_table_ok hst
  obtain ⟨st6, hg, h⟩ := bind_ok_inv h
  obtain ⟨p6, rfl⟩ := posOnly_exists (parse_object_groups_ok hg)
  obtain ⟨offs, hoffs, h⟩ := bind_ok_inv h
  cases h
  refine ⟨?_, ?_, ?_, rfl⟩
  · rw [hs5, hs4]
  · rw [hs5, hs4]
  · rw [hs5, hs4]

/-- Everything before `process_all_meshes` can change any field except the
buffer itself and the `modified` flag; a `True` verdict also guarantees a
positive object count. -/
lemma parseTables_ok {st : NifState} {b : Bool} {st' : NifState}
    (h : parseTables st = .ok (b, st')) :
    st'.data = st.data ∧ st'.modified = st.modified ∧
      (b = true → 0 < st'.num_objects) := by
  unfold parseTables at h
  obtain ⟨⟨b1, st1⟩, hh, h⟩ := bind_ok_inv h
  obtain ⟨hs1, hpos1⟩ := parse_header_ok hh
  dsimp only at h
  split at h
  · rename_i hb1
    obtain ⟨st2, hm, h⟩ := bind_ok_inv h
    obtain ⟨p2, rfl⟩ := posOnly_exists (parse_metadata_ok hm)
    split at h
    · obtain ⟨st3, ht, h⟩ := bind_ok_inv h
      have hs3 := parse_type_names_and_indices_ok ht
      obtain ⟨hd, hm2, hn, rfl⟩ := parseTables_tail_ok h
      refine ⟨?_, ?_, fun _ => ?_⟩
      · rw [hd, hs3, hs1]
      · rw [hm2, hs3, hs1]
      · rw [hn, hs3]
        dsimp only
        rw [hs1] at hpos1 ⊢
        exact hpos1 hb1
    · simp only [pure_bind] at h
      obtain ⟨hd, hm2, hn, rfl⟩ := parseTables_tail_ok h
      refine ⟨?_, ?_, fun _ => ?_⟩
      · rw [hd, hs1]
      · rw [hm2, hs1]
      · rw [hn]
        dsimp only
        rw [hs1] at hpos1 ⊢
        exact hpos1 hb1
  · cases h
    rw [hs1]
    exact ⟨rfl, rfl, fun hb => absurd hb (by rename_i hb1; simp [hb1])⟩

/-! Claim C9: offset accumulation. -/

lemma buildOffsets_getElem {cur : Nat} {sizes : List Nat} {n : Nat} {offs : List Nat}
    (h : buildOffsets cur sizes n = .ok offs) :
    ∀ i, i < n → offs[i]? = some (cur + (List.take i sizes).sum) := by
  induction n generalizing cur sizes offs with
  | zero => intro i hi; omega
  | succ k ih =>
    unfold buildOffsets at h
    match sizes, h with
    | [], h => exact absurd h (by simp)
    | s :: rest, h =>
      obtain ⟨tail, htail, h⟩ := bind_ok_inv h
      cases h
      intro i hi
      match i with
      | 0 => simp
      | j + 1 =>
        have := ih htail j (by omega)
        simp only [List.getElem?_cons_succ, List.take_succ_cons, List.sum_cons, this]
        congr 1
        omega

/-- C9: for every successfully built offset table, `offset[i]` is the base
cursor plus the sum of the first `i` declared sizes; consequently
`offset[0] = cursor` and `offset[i+1] = offset[i] + size[i]` — exactly the
accumulation `parse_and_fix` performs after the last version-gated table. -/
theorem c9_offset_accumulation {cur : Nat} {sizes : List Nat} {n : Nat} {offs : List Nat}
    (h : buildOffsets cur sizes n = .ok offs) :
    (∀ i, i < n → offs[i]? = some (cur + (List.take i sizes).sum)) ∧
    (∀ i s, i + 1 < n → sizes[i]? = some s →
      ∃ a, offs[i]? = some a ∧ offs[i + 1]? = some (a + s)) := by
  refine ⟨buildOffsets_getElem h, fun i s hi hs => ?_⟩
  refine ⟨cur + (List.take i sizes).sum, buildOffsets_getElem h i (by omega), ?_⟩
  rw [buildOffsets_getElem h (i + 1) hi]
  congr 1
  rw [List.take_succ, hs]
  simp [Nat.add_assoc]

/-- Witness for C9 at the declared sizes `[10, 20, 15]` from base offset 100:
the computed offsets are `[100, 110, 130]`, increasing by exactly the sizes. -/
theorem c9_offset_accumulation_witness :
    (∀ i, i < 3 → ([100, 110, 130] : List Nat)[i]? =
      some (100 + (List.take i [10, 20, 15]).sum)) ∧
    (∀ i s, i + 1 < 3 → ([10, 20, 15] : List Nat)[i]? = some s →
      ∃ a, ([100, 110, 130] : List Nat)[i]? = some a ∧
        ([100, 110, 130] : List Nat)[i + 1]? = some (a + s)) :=
  c9_offset_accumulation (by rfl)

/-! Claim C3: error containment. -/

lemma exists_error_bind {α β : Type} {f : α → Except PyErr β} :
    ∀ {x : Except PyErr α}, (∀ a, x = .ok a → ∃ e, f a = .error e) →
      ∃ e, (x >>= f) = .error e
  | .error e, _ => ⟨e, rfl⟩
  | .ok a, h => h a rfl

/-- C3 counterexample: a buffer with a valid identifying header line but
truncated before the mandatory version field. The claim says a read past the
buffer end is a contained, non-fatal per-file failure; in fact the
`struct.error` escapes `fix_nif_file` uncaught (there is no exception handler
anywhere in the script), so the failure propagates past the single-file
operation boundary. -/
theorem c3_counterexample : fix_nif_file B3 = .error .structError := by rfl

/-- C3 amended: only the checked conditions (no newline, missing identifying
substring, non-positive object count) are contained per-file failures. A
buffer with no newline byte at all yields a graceful `(False, no write)`
outcome for the whole `fix_nif_file` operation. -/
theorem c3_no_newline_contained (data : List Nat) (h : (10 : Nat) ∉ data) :
    fix_nif_file data = .ok (false, none) := by
  have hfb : findByte data 10 = none := by
    unfold findByte
    rw [List.findIdx?_eq_none_iff]
    intro x hx
    simp only [beq_eq_false_iff_ne]
    intro hx10
    exact h (hx10 ▸ hx)
  have hph : parse_header (initSt data) = .ok (false, initSt data) := by
    unfold parse_header
    rw [show findByte (initSt data).data 10 = none from hfb]
  unfold fix_nif_file parse_and_fix parseTables
  rw [hph]
  rfl

/-- Witness for C3's amended statement on the concrete buffer `[71]`. -/
theorem c3_no_newline_contained_witness : fix_nif_file [71] = .ok (false, none) :=
  c3_no_newline_contained [71] (by decide)

/-! Claim C2: files older than 20.2.0.5. -/

lemma buildOffsets_nil {cur n : Nat} (h : 0 < n) :
    buildOffsets cur [] n = .error .indexError := by
  match n, h with
  | k + 1, _ => rfl

/-- Tail of `parseTables` raises when the size list is empty and there is at
least one object (the offset loop indexes the empty list). -/
lemma parseTables_tail_err {s : NifState} (hv : s.file_ver < nif_version 20 2 0 5)
    (hn : 0 < s.num_objects) (he : s.object_sizes = []) :
    ∃ e, (do
      let st ← parse_object_sizes s
      let st ← parse_string_table st
      let st ← parse_object_groups st
      let offs ← buildOffsets st.pos st.object_sizes st.num_objects
      Except.ok (true, { st with object_offsets := offs })) = Except.error e := by
  refine exists_error_bind (fun st4 hsz => ?_)
  have hst4 : st4 = s := by
    rw [parse_object_sizes_skip hv] at hsz
    cases hsz
    rfl
  subst hst4
  refine exists_error_bind (fun st5 hst => ?_)
  have h5 := parse_string_table_ok hst
  refine exists_error_bind (fun st6 hg => ?_)
  obtain ⟨p6, rfl⟩ := posOnly_exists (parse_object_groups_ok hg)
  have hsz : st5.object_sizes = [] := by rw [h5]; exact he
  have hno : 0 < st5.num_objects := by rw [h5]; exact hn
  refine ⟨.indexError, ?_⟩
  have : buildOffsets p6 ({ st5 with pos := p6 }).object_sizes
      ({ st5 with pos := p6 }).num_objects = .error .indexError := by
    dsimp only
    rw [hsz]
    exact buildOffsets_nil hno
  rw [this]
  rfl

/-- C2 counterexample: a version-4.0.0.0 file (below 20.2.0.5) with one
declared object. The claim says the run completes normally as a no-op; in
fact the offset-accumulation loop indexes the empty size list and the run
aborts with an uncaught `IndexError`. -/
theorem c2_counterexample : parse_and_fix (initSt B2) = .error .indexError := by rfl

/-- C2 amended: for a file whose header parses with a positive object count
but whose version predates per-object sizes, the run never completes
normally - it raises an uncaught exception (an `IndexError` at the offset
accumulation if every earlier read succeeds). No patches are made and the
buffer is never written, but downstream processing is a failure, not a
no-op. -/
theorem c2_old_version_raises (data : List Nat) (st1 : NifState)
    (h : parse_header (initSt data) = .ok (true, st1))
    (hver : st1.file_ver < nif_version 20 2 0 5) :
    ∃ e, parse_and_fix (initSt data) = .error e := by
  have hsz1 : st1.object_sizes = [] := by
    have := (parse_header_ok h).1
    rw [this]
    rfl
  have hn1 : 0 < st1.num_objects := (parse_header_ok h).2 rfl
  have hpt : ∃ e, parseTables (initSt data) = .error e := by
    unfold parseTables
    rw [h]
    simp only [bind, Except.bind]
    rw [if_pos trivial]
    refine exists_error_bind (fun st2 hm => ?_)
    obtain ⟨p2, rfl⟩ := posOnly_exists (parse_metadata_ok hm)
    split
    · refine exists_error_bind (fun st3 ht => ?_)
      have hs3 := parse_type_names_and_indices_ok ht
      refine parseTables_tail_err ?_ ?_ ?_
      · rw [hs3]; exact hver
      · rw [hs3]; exact hn1
      · rw [hs3]; exact hsz1
    · exact parseTables_tail_err hver hn1 hsz1
  obtain ⟨e, hpt⟩ := hpt
  refine ⟨e, ?_⟩
  unfold parse_and_fix
  rw [hpt]
  rfl

/-- Witness for C2's amended statement at the concrete buffer `B2`. -/
theorem c2_old_version_raises_witness : ∃ e, parse_and_fix (initSt B2) = .error e :=
  c2_old_version_raises B2
    { initSt B2 with pos := 29, file_ver := nif_version 4 0 0 0, num_objects := 1 }
    (by rfl) (by decide)

/-! Claim C6: no INDEX string means no changes. -/

/-- Post-table state of the minimal fully parseable buffer `B6`. -/
def stB6 : NifState :=
  { data := B6, pos := 59, file_ver := nif_version 20 2 0 5, user_ver := 0,
    num_objects := 1, type_names := [[65]], object_types := [[65]],
    object_sizes := [0], object_offsets := [59], string_table := [],
    modified := false }

/-- C6: if the tables parse and the string table holds no `"INDEX"` entry,
the whole run reports unmodified and the buffer is byte-identical to the
input (parsing never writes; `process_all_meshes` returns immediately). -/
theorem c6_no_index_no_changes (data : List Nat) (st : NifState)
    (h : parseTables (initSt data) = .ok (true, st))
    (hno : stringTableIndexOf st.string_table INDEXSTR = none) :
    parse_and_fix (initSt data) = .ok (false, st) ∧ st.data = data := by
  obtain ⟨hd, hm, _⟩ := parseTables_ok h
  refine ⟨?_, hd⟩
  unfold parse_and_fix
  rw [h]
  simp only [bind, Except.bind]
  rw [if_pos trivial]
  have hpm : process_all_meshes st = .ok (st, [], []) := by
    unfold process_all_meshes
    rw [hno]
  rw [hpm]
  dsimp only
  rw [hm]
  rfl

/-- Witness for C6 at the concrete buffer `B6` (empty string table). -/
theorem c6_no_index_no_changes_witness :
    parse_and_fix (initSt B6) = .ok (false, stB6) ∧ stB6.data = B6 :=
  c6_no_index_no_changes B6 stB6 (by rfl) (by rfl)

/-! Claim C10: buffer length preservation. -/

lemma writeBytes_length (data : List Nat) (pos : Nat) (bs : List Nat) :
    (writeBytes data pos bs).length = data.length := by
  induction bs generalizing data pos with
  | nil => rfl
  | cons b rest ih =>
    unfold writeBytes
    rw [ih, List.length_set]

lemma swapTri2_length (data : List Nat) (off : Nat) :
    (swapTri2 data off).length = data.length := by
  unfold swapTri2 write16
  simp only [writeBytes_length]

lemma swapTri4_length (data : List Nat) (off : Nat) :
    (swapTri4 data off).length = data.length := by
  unfold swapTri4 write32
  simp only [writeBytes_length]

lemma patchTris2_length (data : List Nat) (off n : Nat) :
    (patchTris2 data off n).length = data.length := by
  induction n generalizing data off with
  | zero => rfl
  | succ k ih =>
    unfold patchTris2
    split
    · rfl
    · rw [ih, swapTri2_length]

lemma patchTris4_length (data : List Nat) (off n : Nat) :
    (patchTris4 data off n).length = data.length := by
  induction n generalizing data off with
  | zero => rfl
  | succ k ih =>
    unfold patchTris4
    split
    · rfl
    · rw [ih, swapTri4_length]

lemma patchRegions_length (data : List Nat) (isz stride ds : Nat)
    (regs : List (Nat × Nat)) :
    (patchRegions data isz stride ds regs).1.length = data.length := by
  induction regs generalizing data with
  | nil => rfl
  | cons r rest ih =>
    obtain ⟨b, c⟩ := r
    unfold patchRegions
    split
    · split
      · exact ih data
      · dsimp only
        rw [ih, patchTris2_length]
    · split
      · split
        · exact ih data
        · dsimp only
          rw [ih, patchTris4_length]
      · exact ih data

lemma readRegionList_ok {n : Nat} {st : NifState} {xs : List (Nat × Nat)} {st' : NifState}
    (h : readRegionList n st = .ok (xs, st')) : PosOnly st st' := by
  induction n generalizing st xs with
  | zero => cases h; exact posOnly_rfl _
  | succ k ih =>
    unfold readRegionList at h
    obtain ⟨⟨b, st1⟩, hb, h⟩ := bind_ok_inv h
    obtain rfl := read_uint_ok hb
    dsimp only at h
    obtain ⟨⟨c, st2⟩, hc, h⟩ := bind_ok_inv h
    obtain rfl := read_uint_ok hc
    dsimp only at h
    obtain ⟨⟨rest, st3⟩, hr, h⟩ := bind_ok_inv h
    cases h
    exact posOnly_trans (by rfl) (ih hr)

lemma readElemFormats_ok {n e isz stride : Nat} {st : NifState} {r : Nat × Nat}
    {st' : NifState} (h : readElemFormats n e isz stride st = .ok (r, st')) :
    PosOnly st st' := by
  induction n generalizing e isz stride st with
  | zero => cases h; exact posOnly_rfl _
  | succ k ih =>
    unfold readElemFormats at h
    obtain ⟨⟨d, st1⟩, hd, h⟩ := bind_ok_inv h
    obtain rfl := read_uint_ok hd
    exact posOnly_trans (by rfl) (ih h)

lemma fix_datastream_winding_length {st : NifState} {k : Nat} {st' : NifState}
    (h : fix_datastream_winding st k = .ok st') :
    st'.data.length = st.data.length := by
  unfold fix_datastream_winding at h
  obtain ⟨off, hoff, h⟩ := bind_ok_inv h
  obtain ⟨⟨sz, st1⟩, h1, h⟩ := bind_ok_inv h
  obtain rfl := read_uint_ok h1
  dsimp only at h
  obtain ⟨⟨cl, st2⟩, h2, h⟩ := bind_ok_inv h
  obtain rfl := read_uint_ok h2
  dsimp only at h
  obtain ⟨⟨nr, st3⟩, h3, h⟩ := bind_ok_inv h
  obtain rfl := read_uint_ok h3
  dsimp only at h
  obtain ⟨⟨regions, st4⟩, h4, h⟩ := bind_ok_inv h
  obtain ⟨p4, rfl⟩ := posOnly_exists (readRegionList_ok h4)
  dsimp only at h
  obtain ⟨⟨ne, st5⟩, h5, h⟩ := bind_ok_inv h
  obtain rfl := read_uint_ok h5
  dsimp only at h
  obtain ⟨⟨ef, st6⟩, h6, h⟩ := bind_ok_inv h
  obtain ⟨ei, es⟩ := ef
  obtain ⟨p6, rfl⟩ := posOnly_exists (readElemFormats_ok h6)
  dsimp only at h
  split at h
  · cases h
    dsimp only
    rw [patchRegions_length]
  · cases h
    dsimp only
    rw [patchRegions_length]

lemma streamLoop_length {streams : List (Nat × Nat)} {st : NifState}
    {processed : List Nat} {st' : NifState} {pr d p : List Nat}
    (h : streamLoop st streams processed = .ok (st', pr, d, p)) :
    st'.data.length = st.data.length := by
  induction streams generalizing st processed pr d p with
  | nil => cases h; rfl
  | cons s rest ih =>
    obtain ⟨sid, ev⟩ := s
    unfold streamLoop at h
    split at h
    · obtain ⟨⟨st1, pr1, d1, p1⟩, hr, h⟩ := bind_ok_inv h
      cases h
      exact ih hr
    · obtain ⟨st1, hf, h⟩ := bind_ok_inv h
      obtain ⟨⟨st2, pr2, d2, p2⟩, hr, h⟩ := bind_ok_inv h
      cases h
      rw [ih hr, fix_datastream_winding_length hf]

lemma meshLoop_length {idxStr : Nat} {n : Nat} {st : NifState} {i : Nat}
    {processed : List Nat} {st' : NifState} {d p : List Nat}
    (h : meshLoop idxStr st i n processed = .ok (st', d, p)) :
    st'.data.length = st.data.length := by
  induction n generalizing st i processed d p with
  | zero => cases h; rfl
  | succ k ih =>
    unfold meshLoop at h
    obtain ⟨ty, hty, h⟩ := bind_ok_inv h
    split at h
    · obtain ⟨streams, hs, h⟩ := bind_ok_inv h
      obtain ⟨⟨st1, pr1, d1, p1⟩, hsl, h⟩ := bind_ok_inv h
      obtain ⟨⟨st2, d2, p2⟩, hml, h⟩ := bind_ok_inv h
      cases h
      rw [ih hml, streamLoop_length hsl]
    · exact ih h

lemma process_all_meshes_length {st : NifState} {st' : NifState} {d p : List Nat}
    (h : process_all_meshes st = .ok (st', d, p)) :
    st'.data.length = st.data.length := by
  unfold process_all_meshes at h
  split at h
  · cases h; rfl
  · exact meshLoop_length h

/-- C10: a completed run never changes the buffer length: parsing only reads,
and every patch is a fixed-width in-place overwrite (`List.set` based),
bounds-checked before it happens. -/
theorem c10_length_preserved (data : List Nat) (m : Bool) (st' : NifState)
    (h : parse_and_fix (initSt data) = .ok (m, st')) :
    st'.data.length = data.length := by
  unfold parse_and_fix at h
  obtain ⟨⟨b1, st1⟩, hpt, h⟩ := bind_ok_inv h
  obtain ⟨hd1, _, _⟩ := parseTables_ok hpt
  dsimp only at h
  split at h
  · obtain ⟨⟨st2, d2, p2⟩, hpm, h⟩ := bind_ok_inv h
    cases h
    rw [process_all_meshes_length hpm, hd1]
    rfl
  · cases h
    rw [hd1]
    rfl

/-- Witness for C10 at the concrete buffer `B6`. -/
theorem c10_length_preserved_witness : stB6.data.length = B6.length :=
  c10_length_preserved B6 false stB6 (by rfl)

/-! Claim C1: index width selection. -/

lemma readElemFormats_isz_stable {n e isz stride : Nat} {st : NifState}
    {r : Nat × Nat} {st' : NifState} (he : 0 < e)
    (h : readElemFormats n e isz stride st = .ok (r, st')) : r.1 = isz := by
  induction n generalizing e isz stride st with
  | zero => cases h; rfl
  | succ k ih =>
    unfold readElemFormats at h
    obtain ⟨⟨d, st1⟩, hd, h⟩ := bind_ok_inv h
    dsimp only at h
    rw [if_neg (by omega : ¬ e = 0)] at h
    exact ih (by omega) h

/-- `stC1` after the fix: the two trailing 4-byte payload blocks exchanged. -/
def stC1fixed : NifState :=
  { stC1 with
    pos := 28,
    data := pack32 0 ++ pack32 0 ++ pack32 1 ++ pack32 0 ++ pack32 3 ++ pack32 1 ++
      pack32 66565 ++ [1, 2, 3, 4] ++ [9, 10, 11, 12] ++ [5, 6, 7, 8],
    modified := true }

/-- C1 counterexample: a stream whose first ElementFormat entry has
`dataTypeCode = 5` (not 10 or 11) and `itemByteSize = 4`. The claim says the
index width must then be exactly 2; the code instead takes the width from
`itemByteSize` (`index_size = elem_size` before the 10/11 check), computes
width 4, and rewrites the region as 12-byte triples of 4-byte indices (the
payload blocks `[5,6,7,8]` and `[9,10,11,12]` are exchanged whole). -/
theorem c1_counterexample :
    (readElemFormats 1 0 2 0 { stC1 with pos := 24 }).map (fun r => r.1.1) =
        .ok 4 ∧
      fix_datastream_winding stC1 0 = .ok stC1fixed ∧ (4 : Nat) ≠ 2 :=
  ⟨by rfl, by rfl, by decide⟩

/-- C1 amended: the index width is 4 when the first entry's dataTypeCode is
10 or 11, and otherwise equals the first entry's itemByteSize field (it
defaults to 2 only when the stream declares no elements at all). -/
theorem c1_index_width {n : Nat} {st : NifState} {d : Nat} {st1 : NifState}
    {isz stride : Nat} {st2 : NifState}
    (h1 : read_uint st = .ok (d, st1))
    (h2 : readElemFormats (n + 1) 0 2 0 st = .ok ((isz, stride), st2)) :
    isz = if d % 256 = 10 ∨ d % 256 = 11 then 4 else d / 256 % 256 := by
  unfold readElemFormats at h2
  obtain ⟨⟨d', st1'⟩, hd', h2⟩ := bind_ok_inv h2
  rw [h1] at hd'
  cases hd'
  dsimp only at h2
  rw [if_pos rfl] at h2
  exact readElemFormats_isz_stable (by omega) h2

/-- Witness for C1's amended statement: one element format `(1, 6, 5)` -
dataTypeCode 5, itemByteSize 6 - yields index width 6 (not 2). -/
theorem c1_index_width_witness :
    (6 : Nat) = if 67077 % 256 = 10 ∨ 67077 % 256 = 11 then 4 else 67077 / 256 % 256 :=
  @c1_index_width 0 (initSt [5, 6, 1, 0]) 67077 { initSt [5, 6, 1, 0] with pos := 4 }
    6 6 { initSt [5, 6, 1, 0] with pos := 4 } (by rfl) (by rfl)

/-! Claim C4: the modified flag versus actual swaps. -/

/-- C4 counterexample: `stC4` declares one region of one triangle, but the
buffer ends exactly at the payload start, so the triangle loop breaks before
swapping anything. The buffer comes back byte-identical, yet the region's
triangle count is added to `total_triangles` after the `break` and the
modified flag is raised. -/
theorem c4_counterexample :
    fix_datastream_winding stC4 0 = .ok { stC4 with pos := 28, modified := true } := by
  rfl

/-- C4 amended: the patch loop reports a positive triangle total (and hence
raises the modified flag) iff the index width is 2 or 4 and some region's
elementCount is a positive multiple of 3 - whether or not any triangle was
actually rewritten (a region truncated before its first triangle still
counts in full). -/
theorem c4_modified_iff (data : List Nat) (isz stride ds : Nat)
    (regs : List (Nat × Nat)) :
    0 < (patchRegions data isz stride ds regs).2 ↔
      ((isz = 2 ∨ isz = 4) ∧ ∃ r ∈ regs, r.2 % 3 = 0 ∧ 0 < r.2) := by
  induction regs generalizing data with
  | nil => simp [patchRegions]
  | cons r rest ih =>
    obtain ⟨b, c⟩ := r
    unfold patchRegions
    split
    · rename_i h2
      split
      · rename_i hc3
        rw [ih]
        constructor
        · rintro ⟨hw, q, hq, hq3, hqpos⟩
          exact ⟨hw, q, List.mem_cons_of_mem _ hq, hq3, hqpos⟩
        · rintro ⟨hw, q, hq, hq3, hqpos⟩
          rcases List.mem_cons.mp hq with rfl | hq'
          · exact absurd hq3 hc3
          · exact ⟨hw, q, hq', hq3, hqpos⟩
      · rename_i hc3
        have hc0 : c % 3 = 0 := by omega
        dsimp only
        constructor
        · intro hpos
          rcases Nat.lt_or_ge 0 (c / 3) with hc | hc
          · exact ⟨Or.inl h2, (b, c), List.mem_cons_self _ _, hc0, by omega⟩
          · have : 0 < (patchRegions (patchTris2 data (ds + b * stride) (c / 3))
                isz stride ds rest).2 := by omega
            obtain ⟨hw, q, hq, hq3, hqpos⟩ := (ih _).mp this
            exact ⟨hw, q, List.mem_cons_of_mem _ hq, hq3, hqpos⟩
        · rintro ⟨hw, q, hq, hq3, hqpos⟩
          rcases List.mem_cons.mp hq with rfl | hq'
          · have : 0 < c / 3 := by omega
            omega
          · have : 0 < (patchRegions (patchTris2 data (ds + b * stride) (c / 3))
                isz stride ds rest).2 := (ih _).mpr ⟨hw, q, hq', hq3, hqpos⟩
            omega
    · split
      · rename_i h2 h4
        split
        · rename_i hc3
          rw [ih]
          constructor
          · rintro ⟨hw, q, hq, hq3, hqpos⟩
            exact ⟨hw, q, List.mem_cons_of_mem _ hq, hq3, hqpos⟩
          · rintro ⟨hw, q, hq, hq3, hqpos⟩
            rcases List.mem_cons.mp hq with rfl | hq'
            · exact absurd hq3 hc3
            · exact ⟨hw, q, hq', hq3, hqpos⟩
        · rename_i hc3
          have hc0 : c % 3 = 0 := by omega
          dsimp only
          constructor
          · intro hpos
            rcases Nat.lt_or_ge 0 (c / 3) with hc | hc
            · exact ⟨Or.inr h4, (b, c), List.mem_cons_self _ _, hc0, by omega⟩
            · have : 0 < (patchRegions (patchTris4 data (ds + b * stride) (c / 3))
                  isz stride ds rest).2 := by omega
              obtain ⟨hw, q, hq, hq3, hqpos⟩ := (ih _).mp this
              exact ⟨hw, q, List.mem_cons_of_mem _ hq, hq3, hqpos⟩
          · rintro ⟨hw, q, hq, hq3, hqpos⟩
            rcases List.mem_cons.mp hq with rfl | hq'
            · have : 0 < c / 3 := by omega
              omega
            · have : 0 < (patchRegions (patchTris4 data (ds + b * stride) (c / 3))
                  isz stride ds rest).2 := (ih _).mpr ⟨hw, q, hq', hq3, hqpos⟩
              omega
      · rename_i h2 h4
        rw [ih]
        constructor
        · rintro ⟨hw, _⟩
          exact absurd hw (by simp [h2, h4])
        · rintro ⟨hw, _⟩
          exact absurd hw (by simp [h2, h4])

/-! Claim C7: regions whose count is not a multiple of 3. -/

/-- `stC7` after the fix: region `(0, 3)` swapped the payload to `(1, 3, 2)`;
region `(0, 2)` was skipped - but its byte range `[36, 40)` now differs from
the input at byte 38. -/
def stC7fixed : NifState :=
  { stC7 with
    pos := 36,
    data := pack32 0 ++ pack32 0 ++ pack32 2 ++ pack32 0 ++ pack32 3 ++ pack32 0 ++
      pack32 2 ++ pack32 1 ++ pack32 66053 ++ [1, 0, 3, 0, 2, 0],
    modified := true }

/-- C7 counterexample: region `(0, 2)` has elementCount 2 (not a multiple of
3) and covers payload bytes `[36, 40)`; patching region `(0, 3)` overlaps that
range and changes byte 38, so the skipped region's bytes ARE altered by the
run. -/
theorem c7_counterexample :
    fix_datastream_winding stC7 0 = .ok stC7fixed ∧
      stC7fixed.data[38]? ≠ stC7.data[38]? ∧ (2 : Nat) % 3 ≠ 0 :=
  ⟨by rfl, by decide, by decide⟩

/-- C7 amended: a region whose elementCount is not a multiple of 3 is skipped
entirely - its processing step writes nothing anywhere in the buffer (though
bytes inside its range may still be changed by OTHER, overlapping regions). -/
theorem c7_region_skipped (data : List Nat) (isz stride ds b c : Nat)
    (rest : List (Nat × Nat)) (h : c % 3 ≠ 0) :
    patchRegions data isz stride ds ((b, c) :: rest) =
      patchRegions data isz stride ds rest := by
  by_cases h2 : isz = 2
  · subst h2
    simp only [patchRegions]
    rw [if_pos trivial, if_pos h]
  · by_cases h4 : isz = 4
    · subst h4
      simp only [patchRegions]
      rw [if_pos trivial, if_neg h2, if_pos h]
    · simp only [patchRegions]
      rw [if_neg h2, if_neg h4]

/-- Witness for C7's amended statement at count 2 over a 6-byte buffer. -/
theorem c7_region_skipped_witness :
    patchRegions [1, 2, 3, 4, 5, 6] 2 2 0 [(0, 2)] =
      patchRegions [1, 2, 3, 4, 5, 6] 2 2 0 [] :=
  c7_region_skipped [1, 2, 3, 4, 5, 6] 2 2 0 0 2 [] (by decide)

/-! Claim C8: each discovered stream id is patched exactly once. -/

lemma streamLoop_spec {streams : List (Nat × Nat)} {st : NifState} {processed : List Nat}
    {st' : NifState} {pr d p : List Nat}
    (h : streamLoop st streams processed = .ok (st', pr, d, p)) :
    d = streams.map Prod.fst ∧ p.Nodup ∧
      (∀ x, x ∈ p ↔ x ∈ d ∧ x ∉ processed) ∧
      (∀ x, x ∈ pr ↔ x ∈ processed ∨ x ∈ p) := by
  induction streams generalizing st processed pr d p with
  | nil =>
    cases h
    exact ⟨rfl, List.nodup_nil, by simp, by simp⟩
  | cons s rest ih =>
    obtain ⟨sid, ev⟩ := s
    unfold streamLoop at h
    split at h
    · rename_i hin
      obtain ⟨⟨st1, pr1, d1, p1⟩, hr, h⟩ := bind_ok_inv h
      cases h
      obtain ⟨hd, hnd, hp, hpr⟩ := ih hr
      refine ⟨by rw [hd]; rfl, hnd, ?_, hpr⟩
      intro x
      rw [hp x]
      constructor
      · rintro ⟨hx, hxp⟩
        exact ⟨List.mem_cons_of_mem _ hx, hxp⟩
      · rintro ⟨hx, hxp⟩
        rcases List.mem_cons.mp hx with rfl | hx'
        · exact absurd hin hxp
        · exact ⟨hx', hxp⟩
    · rename_i hin
      obtain ⟨st1, hf, h⟩ := bind_ok_inv h
      obtain ⟨⟨st2, pr2, d2, p2⟩, hr, h⟩ := bind_ok_inv h
      cases h
      obtain ⟨hd, hnd, hp, hpr⟩ := ih hr
      refine ⟨by rw [hd]; rfl, ?_, ?_, ?_⟩
      · refine List.nodup_cons.mpr ⟨?_, hnd⟩
        intro hsp
        exact ((hp sid).mp hsp).2 (by simp)
      · intro x
        constructor
        · intro hx
          rcases List.mem_cons.mp hx with rfl | hx'
          · exact ⟨List.mem_cons_self _ _, hin⟩
          · obtain ⟨hxd, hxp⟩ := (hp x).mp hx'
            exact ⟨List.mem_cons_of_mem _ hxd,
              fun hc => hxp (List.mem_append.mpr (Or.inl hc))⟩
        · rintro ⟨hx, hxp⟩
          rcases List.mem_cons.mp hx with rfl | hx'
          · exact List.mem_cons_self _ _
          · by_cases hxsid : x = sid
            · subst hxsid
              exact List.mem_cons_self _ _
            · refine List.mem_cons_of_mem _ ((hp x).mpr ⟨hx', ?_⟩)
              intro hc
              rcases List.mem_append.mp hc with hc' | hc'
              · exact hxp hc'
              · exact hxsid (List.mem_singleton.mp hc')
      · intro x
        rw [hpr x]
        constructor
        · rintro (hc | hc)
          · rcases List.mem_append.mp hc with hc' | hc'
            · exact Or.inl hc'
            · exact Or.inr (List.mem_singleton.mp hc' ▸ List.mem_cons_self _ _)
          · exact Or.inr (List.mem_cons_of_mem _ hc)
        · rintro (hc | hc)
          · exact Or.inl (List.mem_append.mpr (Or.inl hc))
          · rcases List.mem_cons.mp hc with rfl | hc'
            · exact Or.inl (by simp)
            · exact Or.inr hc'

lemma meshLoop_spec {idxStr n : Nat} {st : NifState} {i : Nat} {processed : List Nat}
    {st' : NifState} {d p : List Nat}
    (h : meshLoop idxStr st i n processed = .ok (st', d, p)) :
    p.Nodup ∧ (∀ x, x ∈ p ↔ x ∈ d ∧ x ∉ processed) := by
  induction n generalizing st i processed st' d p with
  | zero =>
    cases h
    exact ⟨List.nodup_nil, by simp⟩
  | succ k ih =>
    unfold meshLoop at h
    obtain ⟨ty, hty, h⟩ := bind_ok_inv h
    split at h
    · obtain ⟨streams, hs, h⟩ := bind_ok_inv h
      obtain ⟨⟨st1, pr1, d1, p1⟩, hsl, h⟩ := bind_ok_inv h
      obtain ⟨⟨st2, d2, p2⟩, hml, h⟩ := bind_ok_inv h
      cases h
      obtain ⟨hd1, hnd1, hp1, hpr1⟩ := streamLoop_spec hsl
      obtain ⟨hnd2, hp2⟩ := ih hml
      constructor
      · rw [List.nodup_append]
        refine ⟨hnd1, hnd2, ?_⟩
        intro x hx1 hx2
        exact ((hp2 x).mp hx2).2 ((hpr1 x).mpr (Or.inr hx1))
      · intro x
        rw [List.mem_append]
        constructor
        · rintro (hx | hx)
          · obtain ⟨hxd, hxp⟩ := (hp1 x).mp hx
            exact ⟨List.mem_append.mpr (Or.inl hxd), hxp⟩
          · obtain ⟨hxd, hxpr⟩ := (hp2 x).mp hx
            exact ⟨List.mem_append.mpr (Or.inr hxd),
              fun hc => hxpr ((hpr1 x).mpr (Or.inl hc))⟩
        · rintro ⟨hxd, hxp⟩
          rcases List.mem_append.mp hxd with hx' | hx'
          · exact Or.inl ((hp1 x).mpr ⟨hx', hxp⟩)
          · by_cases hxp1 : x ∈ p1
            · exact Or.inl hxp1
            · refine Or.inr ((hp2 x).mpr ⟨hx', ?_⟩)
              intro hc
              rcases (hpr1 x).mp hc with hc' | hc'
              · exact hxp hc'
              · exact hxp1 hc'
    · exact ih h

/-- C8: for a run of `process_all_meshes` that completes, the list of stream
ids passed to the Stream Patcher has no duplicates and contains exactly the
ids the Locator discovered (meshes are matched by exact `"NiMesh"` equality
in `meshLoop`); a stream referenced by several meshes is patched once. -/
theorem c8_stream_patched_once {st : NifState} {st' : NifState} {d p : List Nat}
    (h : process_all_meshes st = .ok (st', d, p)) :
    p.Nodup ∧ ∀ x, x ∈ p ↔ x ∈ d := by
  unfold process_all_meshes at h
  split at h
  · cases h
    exact ⟨List.nodup_nil, by simp⟩
  · obtain ⟨hnd, hp⟩ := meshLoop_spec h
    refine ⟨hnd, fun x => ?_⟩
    rw [hp x]
    simp

/-- `stW8` after its single stream is patched. -/
def stW8fixed : NifState :=
  { stW8 with
    pos := 68,
    data := meshRec ++ (pack32 6 ++ pack32 0 ++ pack32 1 ++ pack32 0 ++
      pack32 3 ++ pack32 1 ++ pack32 66053 ++ [1, 0, 3, 0, 2, 0]),
    modified := true }

/-- Witness for C8 on the concrete one-mesh/one-stream state `stW8`:
discovered ids `[1]`, patched ids `[1]`. -/
theorem c8_stream_patched_once_witness :
    ([1] : List Nat).Nodup ∧ ∀ x, x ∈ ([1] : List Nat) ↔ x ∈ ([1] : List Nat) :=
  @c8_stream_patched_once stW8 stW8fixed [1] [1] (by rfl)

/-! Claim C5: involution of the fixer. -/

/-- All entries of the buffer are byte values. -/
def ByteOk (data : List Nat) : Prop := ∀ b ∈ data, b < 256

/-- `swapTri2` written out as its six byte stores. -/
lemma swapTri2_eq (data : List Nat) (off : Nat) :
    swapTri2 data off =
      ((((((data.set off (readLE data off 2 % 256)).set (off + 1)
        (readLE data off 2 / 256 % 256)).set (off + 2)
        (readLE data (off + 4) 2 % 256)).set (off + 3)
        (readLE data (off + 4) 2 / 256 % 256)).set (off + 4)
        (readLE data (off + 2) 2 % 256)).set (off + 5)
        (readLE data (off + 2) 2 / 256 % 256)) := rfl

lemma byteOk_set {data : List Nat} (h : ByteOk data) {v : Nat} (hv : v < 256) (i : Nat) :
    ByteOk (data.set i v) := by
  intro b hb
  rcases List.mem_or_eq_of_mem_set hb with h' | rfl
  · exact h b h'
  · exact hv

lemma byteOk_swapTri2 {data : List Nat} (h : ByteOk data) (off : Nat) :
    ByteOk (swapTri2 data off) := by
  rw [swapTri2_eq]
  refine byteOk_set (byteOk_set (byteOk_set (byteOk_set (byteOk_set (byteOk_set h ?_ _)
    ?_ _) ?_ _) ?_ _) ?_ _) ?_ _
  all_goals exact Nat.mod_lt _ (by decide)

lemma byteOk_patchTris2 {data : List Nat} (h : ByteOk data) (off n : Nat) :
    ByteOk (patchTris2 data off n) := by
  induction n generalizing data off with
  | zero => exact h
  | succ k ih =>
    unfold patchTris2
    split
    · exact h
    · exact ih (byteOk_swapTri2 h off) (off + 6)

/-- Position permutation performed by one 16-bit triangle swap: bytes
`off+2, off+3` exchange with `off+4, off+5`. -/
def swapPos (off j : Nat) : Nat :=
  if j = off + 2 then j + 2
  else if j = off + 3 then j + 2
  else if j = off + 4 then j - 2
  else if j = off + 5 then j - 2
  else j

lemma swapPos_out {off j : Nat} (h : j < off + 2 ∨ off + 6 ≤ j) : swapPos off j = j := by
  have h2 : ¬j = off + 2 := by omega
  have h3 : ¬j = off + 3 := by omega
  have h4 : ¬j = off + 4 := by omega
  have h5 : ¬j = off + 5 := by omega
  unfold swapPos
  rw [if_neg h2, if_neg h3, if_neg h4, if_neg h5]

lemma swapPos_at2 (off : Nat) : swapPos off (off + 2) = off + 4 := by
  unfold swapPos
  rw [if_pos rfl]

lemma swapPos_at3 (off : Nat) : swapPos off (off + 3) = off + 5 := by
  have n2 : ¬off + 3 = off + 2 := by omega
  unfold swapPos
  rw [if_neg n2, if_pos rfl]

lemma swapPos_at4 (off : Nat) : swapPos off (off + 4) = off + 2 := by
  have n2 : ¬off + 4 = off + 2 := by omega
  have n3 : ¬off + 4 = off + 3 := by omega
  unfold swapPos
  rw [if_neg n2, if_neg n3, if_pos rfl]
  omega

lemma swapPos_at5 (off : Nat) : swapPos off (off + 5) = off + 3 := by
  have n2 : ¬off + 5 = off + 2 := by omega
  have n3 : ¬off + 5 = off + 3 := by omega
  have n4 : ¬off + 5 = off + 4 := by omega
  unfold swapPos
  rw [if_neg n2, if_neg n3, if_neg n4, if_pos rfl]
  omega

lemma swapPos_invol (off j : Nat) : swapPos off (swapPos off j) = j := by
  rcases (by omega :
      j = off + 2 ∨ j = off + 3 ∨ j = off + 4 ∨ j = off + 5 ∨
        (j < off + 2 ∨ off + 6 ≤ j)) with h | h | h | h | h
  · rw [h, swapPos_at2, swapPos_at4]
  · rw [h, swapPos_at3, swapPos_at5]
  · rw [h, swapPos_at4, swapPos_at2]
  · rw [h, swapPos_at5, swapPos_at3]
  · rw [swapPos_out h, swapPos_out h]

lemma swapPos_zone {off j : Nat}
    (h : j = off + 2 ∨ j = off + 3 ∨ j = off + 4 ∨ j = off + 5) :
    off + 2 ≤ swapPos off j ∧ swapPos off j < off + 6 := by
  rcases h with h | h | h | h
  · rw [h, swapPos_at2]; omega
  · rw [h, swapPos_at3]; omega
  · rw [h, swapPos_at4]; omega
  · rw [h, swapPos_at5]; omega

lemma swapPos_comm {off p : Nat} (h : off + 6 ≤ p) (j : Nat) :
    swapPos p (swapPos off j) = swapPos off (swapPos p j) := by
  rcases (by omega :
      (j = off + 2 ∨ j = off + 3 ∨ j = off + 4 ∨ j = off + 5) ∨
        (j = p + 2 ∨ j = p + 3 ∨ j = p + 4 ∨ j = p + 5) ∨
        ((j < off + 2 ∨ off + 6 ≤ j) ∧ (j < p + 2 ∨ p + 6 ≤ j))) with hz | hz | hz
  · obtain ⟨hlo, hhi⟩ := swapPos_zone hz
    rw [swapPos_out (Or.inl (by omega : swapPos off j < p + 2)),
      swapPos_out (show j < p + 2 ∨ p + 6 ≤ j by omega)]
  · obtain ⟨hlo, hhi⟩ := swapPos_zone hz
    rw [swapPos_out (show j < off + 2 ∨ off + 6 ≤ j by omega),
      swapPos_out (Or.inr (by omega : off + 6 ≤ swapPos p j))]
  · obtain ⟨h1, h2⟩ := hz
    rw [swapPos_out h1, swapPos_out h2, swapPos_out h1]

lemma exists_getElem? {α : Type} (l : List α) {j : Nat} (h : j < l.length) :
    ∃ b, l[j]? = some b := by
  rw [List.getElem?_eq_getElem h]
  exact ⟨_, rfl⟩

lemma bytesAt_two {data : List Nat} {p x y : Nat}
    (hx : data[p]? = some x) (hy : data[p + 1]? = some y) :
    bytesAt data p 2 = [x, y] := by
  simp only [bytesAt, hx, hy]

lemma readLE_two {data : List Nat} {p x y : Nat}
    (hx : data[p]? = some x) (hy : data[p + 1]? = some y) :
    readLE data p 2 = x + 256 * y := by
  unfold readLE
  rw [bytesAt_two hx hy]
  unfold leVal
  simp [List.foldr]

/-- Skip two adjacent stores that both miss position `j`. -/
lemma set2_getElem?_ne {α : Type} {l : List α} {i1 i2 j : Nat}
    (h1 : i1 ≠ j) (h2 : i2 ≠ j) {a b : α} :
    ((l.set i1 a).set i2 b)[j]? = l[j]? := by
  rw [List.getElem?_set_ne h2, List.getElem?_set_ne h1]

/-- Pointwise characterisation of one 16-bit triangle swap (in bounds, on a
byte-valued buffer): position `j` receives the byte from `swapPos off j`. -/
lemma swapTri2_getElem? {data : List Nat} {off : Nat} (hlen : off + 6 ≤ data.length)
    (hbo : ByteOk data) (j : Nat) :
    (swapTri2 data off)[j]? = data[swapPos off j]? := by
  obtain ⟨b0, h0⟩ := exists_getElem? data (show off < data.length by omega)
  obtain ⟨b1, h1⟩ := exists_getElem? data (show off + 1 < data.length by omega)
  obtain ⟨b2, h2⟩ := exists_getElem? data (show off + 2 < data.length by omega)
  obtain ⟨b3, h3⟩ := exists_getElem? data (show off + 3 < data.length by omega)
  obtain ⟨b4, h4⟩ := exists_getElem? data (show off + 4 < data.length by omega)
  obtain ⟨b5, h5⟩ := exists_getElem? data (show off + 5 < data.length by omega)
  have hb0 : b0 < 256 := hbo _ (List.getElem?_mem h0)
  have hb1 : b1 < 256 := hbo _ (List.getElem?_mem h1)
  have hb2 : b2 < 256 := hbo _ (List.getElem?_mem h2)
  have hb3 : b3 < 256 := hbo _ (List.getElem?_mem h3)
  have hb4 : b4 < 256 := hbo _ (List.getElem?_mem h4)
  have hb5 : b5 < 256 := hbo _ (List.getElem?_mem h5)
  have ha : readLE data off 2 = b0 + 256 * b1 := readLE_two h0 h1
  have hb : readLE data (off + 2) 2 = b2 + 256 * b3 := readLE_two h2 h3
  have hc : readLE data (off + 4) 2 = b4 + 256 * b5 := readLE_two h4 h5
  rw [swapTri2_eq, ha, hb, hc]
  by_cases e0 : j = off
  · subst e0
    rw [set2_getElem?_ne (by omega) (by omega), set2_getElem?_ne (by omega) (by omega),
      List.getElem?_set_ne (by omega), List.getElem?_set_eq_of_lt _ (by omega),
      swapPos_out (by omega), h0]
    congr 1
    omega
  by_cases e1 : j = off + 1
  · subst e1
    rw [set2_getElem?_ne (by omega) (by omega), set2_getElem?_ne (by omega) (by omega),
      List.getElem?_set_eq_of_lt _ (by rw [List.length_set]; omega),
      swapPos_out (by omega), h1]
    congr 1
    omega
  by_cases e2 : j = off + 2
  · subst e2
    rw [set2_getElem?_ne (by omega) (by omega), List.getElem?_set_ne (by omega),
      List.getElem?_set_eq_of_lt _ (by simp only [List.length_set]; omega),
      swapPos_at2, h4]
    congr 1
    omega
  by_cases e3 : j = off + 3
  · subst e3
    rw [set2_getElem?_ne (by omega) (by omega),
      List.getElem?_set_eq_of_lt _ (by simp only [List.length_set]; omega),
      swapPos_at3, h5]
    congr 1
    omega
  by_cases e4 : j = off + 4
  · subst e4
    rw [List.getElem?_set_ne (by omega),
      List.getElem?_set_eq_of_lt _ (by simp only [List.length_set]; omega),
      swapPos_at4, h2]
    congr 1
    omega
  by_cases e5 : j = off + 5
  · subst e5
    rw [List.getElem?_set_eq_of_lt _ (by simp only [List.length_set]; omega),
      swapPos_at5, h3]
    congr 1
    omega
  · rw [set2_getElem?_ne (by omega) (by omega), set2_getElem?_ne (by omega) (by omega),
      set2_getElem?_ne (by omega) (by omega), swapPos_out (by omega)]

/-- One in-bounds swap applied twice restores the six bytes exactly. -/
lemma swapTri2_involutive {data : List Nat} {off : Nat} (hlen : off + 6 ≤ data.length)
    (hbo : ByteOk data) : swapTri2 (swapTri2 data off) off = data := by
  apply List.ext_getElem?
  intro j
  have hlen1 : off + 6 ≤ (swapTri2 data off).length := by
    rw [swapTri2_length]
    exact hlen
  rw [swapTri2_getElem? hlen1 (byteOk_swapTri2 hbo off) j,
    swapTri2_getElem? hlen hbo (swapPos off j), swapPos_invol]

/-- Two swaps at byte-disjoint offsets commute. -/
lemma swapTri2_comm {data : List Nat} {off p : Nat} (hop : off + 6 ≤ p)
    (hlo : off + 6 ≤ data.length) (hp : p + 6 ≤ data.length) (hbo : ByteOk data) :
    swapTri2 (swapTri2 data p) off = swapTri2 (swapTri2 data off) p := by
  apply List.ext_getElem?
  intro j
  have hl1 : off + 6 ≤ (swapTri2 data p).length := by rw [swapTri2_length]; exact hlo
  have hl2 : p + 6 ≤ (swapTri2 data off).length := by rw [swapTri2_length]; exact hp
  rw [swapTri2_getElem? hl1 (byteOk_swapTri2 hbo p) j,
    swapTri2_getElem? hp hbo (swapPos off j),
    swapTri2_getElem? hl2 (byteOk_swapTri2 hbo off) j,
    swapTri2_getElem? hlo hbo (swapPos p j), swapPos_comm hop]

/-- Step equation for the 16-bit triangle loop. -/
lemma patchTris2_succ (data : List Nat) (off k : Nat) :
    patchTris2 data off (k + 1) =
      if data.length < off + 6 then data
      else patchTris2 (swapTri2 data off) (off + 6) k := rfl

/-- A swap strictly below the triangle loop's range commutes with the loop. -/
lemma swapTri2_patchTris2_comm {Y : List Nat} {off p n : Nat} (hbo : ByteOk Y)
    (hop : off + 6 ≤ p) (hlo : off + 6 ≤ Y.length) :
    swapTri2 (patchTris2 Y p n) off = patchTris2 (swapTri2 Y off) p n := by
  induction n generalizing Y p with
  | zero => rfl
  | succ k ih =>
    by_cases hb : Y.length < p + 6
    · have e1 : patchTris2 Y p (k + 1) = Y := by
        rw [patchTris2_succ, if_pos hb]
      have e2 : patchTris2 (swapTri2 Y off) p (k + 1) = swapTri2 Y off := by
        rw [patchTris2_succ, if_pos (by rw [swapTri2_length]; exact hb)]
      rw [e1, e2]
    · have hple : p + 6 ≤ Y.length := by omega
      have e1 : patchTris2 Y p (k + 1) = patchTris2 (swapTri2 Y p) (p + 6) k := by
        rw [patchTris2_succ, if_neg hb]
      have e2 : patchTris2 (swapTri2 Y off) p (k + 1) =
          patchTris2 (swapTri2 (swapTri2 Y off) p) (p + 6) k := by
        rw [patchTris2_succ, if_neg (by rw [swapTri2_length]; exact hb)]
      rw [e1, e2,
        ih (byteOk_swapTri2 hbo p) (by omega) (by rw [swapTri2_length]; exact hlo),
        swapTri2_comm hop hlo hple hbo]

/-- C5 amended, core statement: over any byte-valued buffer, running the
16-bit triangle loop of the Stream Patcher twice over the same region is the
identity - each triple swap `(a, b, c) → (a, c, b)` is self-inverse, the
triples of one region are laid out disjointly, and the early-exit bound is
identical in both passes because patching preserves the length. -/
theorem c5_patch_involutive (data : List Nat) (off n : Nat) (hbo : ByteOk data) :
    patchTris2 (patchTris2 data off n) off n = data := by
  induction n generalizing data off with
  | zero => rfl
  | succ k ih =>
    by_cases hb : data.length < off + 6
    · have h1 : patchTris2 data off (k + 1) = data := by
        rw [patchTris2_succ, if_pos hb]
      rw [h1, h1]
    · have hlen : off + 6 ≤ data.length := by omega
      have h1 : patchTris2 data off (k + 1) = patchTris2 (swapTri2 data off) (off + 6) k := by
        rw [patchTris2_succ, if_neg hb]
      rw [h1]
      have hlen2 : ¬(patchTris2 (swapTri2 data off) (off + 6) k).length < off + 6 := by
        rw [patchTris2_length, swapTri2_length]
        omega
      have h2 : patchTris2 (patchTris2 (swapTri2 data off) (off + 6) k) off (k + 1) =
          patchTris2 (swapTri2 (patchTris2 (swapTri2 data off) (off + 6) k) off)
            (off + 6) k := by
        rw [patchTris2_succ, if_neg hlen2]
      rw [h2,
        swapTri2_patchTris2_comm (byteOk_swapTri2 hbo off) (by omega)
          (by rw [swapTri2_length]; exact hlen),
        swapTri2_involutive hlen hbo,
        ih data (off + 6) hbo]

/-- Witness for C5's amended statement on a concrete 6-byte buffer. -/
theorem c5_patch_involutive_witness :
    patchTris2 (patchTris2 [1, 0, 2, 0, 3, 0] 0 1) 0 1 = [1, 0, 2, 0, 3, 0] :=
  c5_patch_involutive [1, 0, 2, 0, 3, 0] 0 1 (by
    intro b hb
    fin_cases hb <;> decide)

set_option maxRecDepth 1000000

/-- C5 counterexample: the synthetic file `B5` declares two OVERLAPPING
regions `(0, 3)` and `(1, 3)` (the second starts one 2-byte element after the
first). Both runs complete; the composed permutation of the overlapping
swaps is not an involution, so the second run does not restore the input:
`fix(fix(B5)) = B5f2 ≠ B5`. -/
theorem c5_counterexample :
    fix_nif_file B5 = .ok (true, some B5f1) ∧
      fix_nif_file B5f1 = .ok (true, some B5f2) ∧ B5f2 ≠ B5 :=
  ⟨by rfl, by rfl, by decide⟩

end NifFix
